import Mathlib

/-!
Shallow embedding of the state-reconciliation core of the `console` repository
(`tokio-console/src/intern.rs`, `tokio-console/src/warnings.rs`,
`tokio-console/src/state/async_ops.rs`), together with theorems settling the
specification claims about it.

Timestamps (`SystemTime`) and durations (`Duration`) are modelled as natural
numbers; `SystemTime::duration_since` and `Duration::checked_sub` become
explicit `Option`-valued subtraction, so every clamp in the source is visible.
Shared-ownership (`Rc`) strong counts are modelled as explicit natural-number
holder counts, and `Rc` allocation identity as an explicit allocation index.
-/

namespace Console

/-- `SystemTime::duration_since`: `Ok(a - b)` when `b ≤ a`, `Err` otherwise. -/
def durationSince (a b : Nat) : Option Nat :=
  if b ≤ a then some (a - b) else none

/-- `Duration::checked_sub`: `Some(a - b)` when `b ≤ a`, `None` otherwise. -/
def checkedSub (a b : Nat) : Option Nat :=
  if b ≤ a then some (a - b) else none

/-! ## Interner (`intern.rs`)

`InternedStr(Rc<String>)` is modelled as a string content together with an
allocation index standing for the identity of the `Rc` allocation.  An entry of
the interner's `HashSet<InternedStr>` carries, besides the handle it owns, the
number of *external* holders of the same allocation (clones held by entities);
`Rc::strong_count` is then one (the set's own handle) plus that number. -/

/-- `InternedStr`: shared immutable string; `alloc` is the `Rc` allocation identity. -/
structure InternedStr where
  alloc : Nat
  content : String
deriving DecidableEq, Repr

/-- One element of the interner's hash set: the owned handle plus the count of
external clones of the same allocation currently held outside the interner. -/
structure StrEntry where
  alloc : Nat
  content : String
  external_holders : Nat
deriving DecidableEq, Repr

/-- `Rc::strong_count` of an interned entry: the set's own handle plus all
external holders. -/
def StrEntry.strong_count (e : StrEntry) : Nat :=
  1 + e.external_holders

/-- The interner `Strings { strings: HashSet<InternedStr> }`.  The hash set is
modelled as a list of entries together with its current `capacity`; `next_alloc`
supplies fresh `Rc` allocation identities. -/
structure Strings where
  strings : List StrEntry
  capacity : Nat
  next_alloc : Nat
deriving DecidableEq, Repr

/-- Cloning the handle of the entry for content `s` bumps that allocation's
external holder count; every other entry is untouched. -/
def bumpEntry (s : String) (e : StrEntry) : StrEntry :=
  if e.content = s then { e with external_holders := e.external_holders + 1 } else e

/-- `Strings::insert`: allocate a fresh `Rc`, put one handle into the set, and
return the other (so the new allocation starts with one external holder). -/
def Strings.insert (st : Strings) (s : String) : InternedStr × Strings :=
  ({ alloc := st.next_alloc, content := s },
   { strings := st.strings ++ [{ alloc := st.next_alloc, content := s, external_holders := 1 }],
     capacity := max st.capacity (st.strings.length + 1),
     next_alloc := st.next_alloc + 1 })

/-- `Strings::string`: if content-equal entry is present, return a clone of its
handle (bumping the allocation's holder count); otherwise insert. -/
def Strings.string (st : Strings) (s : String) : InternedStr × Strings :=
  match st.strings.find? (fun e => e.content == s) with
  | some e => ({ alloc := e.alloc, content := e.content },
               { st with strings := st.strings.map (bumpEntry s) })
  | none => st.insert s

/-- `Strings::string_ref`: the borrowed-key variant of `string`; same
lookup-or-insert semantics. -/
def Strings.string_ref (st : Strings) (s : String) : InternedStr × Strings :=
  match st.strings.find? (fun e => e.content == s) with
  | some e => ({ alloc := e.alloc, content := e.content },
               { st with strings := st.strings.map (bumpEntry s) })
  | none => st.insert s

/-- `std::mem::size_of::<String>()` on a 64-bit target: three words. -/
def SIZE_OF_STRING : Nat := 24

/-- The sweep's shrink threshold `FOUR_KILOBYTES` from `retain_referenced`. -/
def FOUR_KILOBYTES : Nat := 4 * 1024

/-- `Strings::retain_referenced`: drop every entry whose `Rc::strong_count` is
not `> 1` (no external holder remains); if anything was dropped and the free
capacity in bytes is at least `FOUR_KILOBYTES`, shrink the set to fit. -/
def Strings.retain_referenced (st : Strings) : Strings :=
  let len0 := st.strings.length
  let kept := st.strings.filter (fun e => 1 < e.strong_count)
  let len := kept.length
  if len < len0 then
    let free_cap := (st.capacity - len) * SIZE_OF_STRING
    if FOUR_KILOBYTES ≤ free_cap then
      { st with strings := kept, capacity := len }
    else
      { st with strings := kept }
  else
    { st with strings := kept }

/-! ## Identifier remapper -/

/-- Modelled from the spec: the Identifier Remapper `Ids<Kind>` of §4.2 (its
source file `state/store.rs` is not among the provided sources; only its
callers are).  It maps a remote (wire) id to a stable local id, allocating the
next sequential local id on first sight. -/
structure Ids where
  map : List (Nat × Nat)
  next : Nat
deriving DecidableEq, Repr

/-- Modelled from the spec: `Ids::id_for` returns the stable local id for a
remote id, allocating the next sequential local id on first sight (§4.2). -/
def Ids.id_for (ids : Ids) (remote : Nat) : Nat × Ids :=
  match ids.map.lookup remote with
  | some l => (l, ids)
  | none => (ids.next, { map := ids.map ++ [(remote, ids.next)], next := ids.next + 1 })

/-! ## Async operations (`state/async_ops.rs`) -/

/-- The `poll_stats` sub-message of a protocol stats record. -/
structure ProtoPollStats where
  polls : Nat
  busy_time : Option Nat
  last_poll_started : Option Nat
  last_poll_ended : Option Nat
deriving DecidableEq, Repr

/-- `proto::async_ops::Stats`.  `created_at` and `poll_stats` are required
(`AsyncOpStats::from_proto` panics via `expect` when they are absent), so they
are modelled as plain fields. -/
structure ProtoAsyncOpStats where
  created_at : Nat
  dropped_at : Option Nat
  poll_stats : ProtoPollStats
  task_id : Option Nat
deriving DecidableEq, Repr

/-- The stored stats block `AsyncOpStats`.  The `formatted_attributes`
rendering field is presentation-only and carries no claim-relevant state, so it
is not modelled. -/
structure AsyncOpStats where
  created_at : Nat
  dropped_at : Option Nat
  polls : Nat
  busy : Nat
  last_poll_started : Option Nat
  last_poll_ended : Option Nat
  idle : Option Nat
  total : Option Nat
  task_id : Option Nat
  task_id_str : InternedStr
deriving DecidableEq, Repr

/-- The entity record `AsyncOp`. -/
structure AsyncOp where
  id : Nat
  parent_id : InternedStr
  resource_id : Nat
  meta_id : Nat
  source : InternedStr
  stats : AsyncOpStats
deriving DecidableEq, Repr

/-- `AsyncOp::total`: the precomputed total if present, else
`since.duration_since(created_at)`, defaulting to zero. -/
def AsyncOp.total (a : AsyncOp) (since : Nat) : Nat :=
  ((a.stats.total).orElse (fun _ => durationSince since a.stats.created_at)).getD 0

/-- `AsyncOp::busy`: the accumulated busy time, plus the time spent in the
current poll when `last_poll_started` is set and `last_poll_ended` is not. -/
def AsyncOp.busy (a : AsyncOp) (since : Nat) : Nat :=
  match a.stats.last_poll_started, a.stats.last_poll_ended with
  | some last_poll_started, none =>
    a.stats.busy + (durationSince since last_poll_started).getD 0
  | _, _ => a.stats.busy

/-- `AsyncOp::idle`: the precomputed idle time if present, else
`total(since) - busy(since)` via `checked_sub`, defaulting to zero. -/
def AsyncOp.idle (a : AsyncOp) (since : Nat) : Nat :=
  ((a.stats.idle).orElse (fun _ => checkedSub (a.total since) (a.busy since))).getD 0

/-- `AsyncOp::task_id`. -/
def AsyncOp.task_id (a : AsyncOp) : Option Nat :=
  a.stats.task_id

/-- `AsyncOp::total_polls`. -/
def AsyncOp.total_polls (a : AsyncOp) : Nat :=
  a.stats.polls

/-- `AsyncOp::dropped`. -/
def AsyncOp.dropped (a : AsyncOp) : Bool :=
  a.stats.total.isSome

/-- `AsyncOpStats::from_proto`: derive the stored stats block from a protocol
stats record, remapping the owning task id and interning its rendering. -/
def AsyncOpStats.from_proto (pb : ProtoAsyncOpStats) (task_ids : Ids) (strings : Strings) :
    AsyncOpStats × Ids × Strings :=
  let created_at := pb.created_at
  let dropped_at := pb.dropped_at
  let total := dropped_at.map (fun d => (durationSince d created_at).getD 0)
  let busy := pb.poll_stats.busy_time.getD 0
  let idle := total.map (fun t => (checkedSub t busy).getD 0)
  let step : Option Nat × Ids :=
    match pb.task_id with
    | some remote =>
      let r := task_ids.id_for remote
      (some r.1, r.2)
    | none => (none, task_ids)
  let task_id := step.1
  let task_ids1 := step.2
  let interned := strings.string (match task_id with | some l => toString l | none => ("n/a"))
  ({ created_at := created_at,
     dropped_at := dropped_at,
     polls := pb.poll_stats.polls,
     busy := busy,
     last_poll_started := pb.poll_stats.last_poll_started,
     last_poll_ended := pb.poll_stats.last_poll_ended,
     idle := idle,
     total := total,
     task_id := task_id,
     task_id_str := interned.1 }, task_ids1, interned.2)

/-! ## Sorting (`SortBy::sort` in `state/async_ops.rs`)

The view sorts a slice of `Weak<RefCell<AsyncOp>>` by
`sort_unstable_by_key(|ao| ao.upgrade().map(key))`.  A weak reference is
modelled as `Option AsyncOp` (`none` when the backing entity has been evicted
and `upgrade` fails).  Keys are therefore `Option`-valued, compared with the
derived `Ord` of Rust's `Option`, under which `None` is *less than* every
`Some`. -/

/-- A `Weak<RefCell<AsyncOp>>`: `target = none` models an evicted entity, for
which `Weak::upgrade` fails. -/
structure WeakOp where
  target : Option AsyncOp
deriving DecidableEq, Repr

/-- Boolean `≤` of a linear order. -/
def leB {β : Type} [LinearOrder β] (x y : β) : Bool :=
  decide (x ≤ y)

/-- The derived `Ord` of Rust's `Option`, as a boolean `≤`: `None` is less
than every `Some`, and `Some`s compare by the payload order. -/
def obLe {β : Type} (le : β → β → Bool) : Option β → Option β → Bool
  | none, _ => true
  | some _, none => false
  | some a, some b => le a b

/-- The sort key of one weak reference: `ao.upgrade().map(key)`. -/
def upgradeKey {β : Type} (key : AsyncOp → β) (w : WeakOp) : Option β :=
  w.target.map key

/-- Comparison of two weak references by their upgraded keys. -/
def keyedLe {β : Type} (le : β → β → Bool) (key : AsyncOp → β) (x y : WeakOp) : Bool :=
  obLe le (upgradeKey key x) (upgradeKey key y)

/-- The selectable sort column (`SortBy`). -/
inductive SortBy
  | Aid
  | Task
  | Source
  | Total
  | Busy
  | Idle
  | Polls
deriving DecidableEq, Repr

/-- The key comparison used by each `SortBy` arm.  `Source` compares the
interned string's content (`InternedStr` derives `Ord` through `Rc<String>`). -/
def SortBy.le (s : SortBy) (now : Nat) : WeakOp → WeakOp → Bool :=
  match s with
  | .Aid => keyedLe leB (fun a => a.id)
  | .Task => keyedLe (obLe leB) (fun a => a.task_id)
  | .Source => keyedLe leB (fun a => a.source.content)
  | .Total => keyedLe leB (fun a => a.total now)
  | .Busy => keyedLe leB (fun a => a.busy now)
  | .Idle => keyedLe leB (fun a => a.idle now)
  | .Polls => keyedLe leB (fun a => a.stats.polls)

/-- `SortBy::sort`: sort the weak references by the selected key, all keys
computed against the single instant `now`. -/
def SortBy.sort (s : SortBy) (now : Nat) (ops : List WeakOp) : List WeakOp :=
  ops.mergeSort (s.le now)

/-! ## Warning engine (`warnings.rs`) -/

/-- The result of a `Warn::check`. -/
inductive Warning
  | Ok
  | Warn
  | Recheck
deriving DecidableEq, Repr

/-- The result of a `Linter::check`.  `Lint::Warning` stands for the variant
carrying the cloned `Linter` handle that the entity will hold. -/
inductive Lint
  | Ok
  | Warning
  | Recheck
deriving DecidableEq, Repr

/-- `Linter::check`: translate the rule's verdict, cloning the shared handle
into the result on `Warn`. -/
def Linter.check (w : Warning) : Lint :=
  match w with
  | .Ok => .Ok
  | .Warn => .Warning
  | .Recheck => .Recheck

/-- Modelled from the spec: how an entity updates the clone it holds for one
rule after a check (§4.6 state machine; the calling code lives in
`state/tasks.rs`, which is not among the provided sources).  `Ok` drops the
clone, `Warning` holds (or keeps) one, `Recheck` leaves the previous state
untouched. -/
def holdsClone (l : Lint) (prev : Bool) : Bool :=
  match l with
  | .Ok => false
  | .Warning => true
  | .Recheck => prev

/-- Whether an entity holds a clone after a whole history of rule verdicts,
starting from no clone. -/
def warnedAfter (checks : List Warning) : Bool :=
  checks.foldl (fun prev w => holdsClone (Linter.check w) prev) false

/-- `Rc::strong_count` of the rule handle: the canonical registry holder plus
one per entity-held clone.  `holders` lists, per live entity, whether it holds
a clone. -/
def strongCount (holders : List Bool) : Nat :=
  1 + holders.countP (fun b => b)

/-- `Linter::count`: `Rc::strong_count(&self.0) - 1`. -/
def Linter.count (holders : List Bool) : Nat :=
  strongCount holders - 1

/-- The last verdict of a history that was not `Recheck`, if any. -/
def lastNonRecheck : List Warning → Option Warning
  | [] => none
  | w :: ws =>
    match lastNonRecheck ws with
    | some r => some r
    | none => if w == Warning.Recheck then none else some w

/-! ### Task lints -/

/-- The scheduling state of a task, as far as the lints observe it. -/
inductive TaskState
  | Running
  | Idle
  | Completed
deriving DecidableEq, Repr

/-- Modelled from the spec: the `Task` accessors read by the lints
(`state/tasks.rs` is not among the provided sources).  `busy_now` is the value
of `task.busy(SystemTime::now())` at the instant of the check. -/
structure Task where
  is_blocking : Bool
  state : TaskState
  total_polls : Nat
  busy_now : Nat
deriving DecidableEq, Repr

/-- The `NeverYielded` lint configuration. -/
structure NeverYielded where
  min_duration : Nat
deriving DecidableEq, Repr

/-- `NeverYielded::check`: no warning for blocking tasks, tasks not currently
running, or tasks polled more than once; otherwise warn once the busy time has
reached the configured minimum, and defer via `Recheck` before that. -/
def NeverYielded.check (ny : NeverYielded) (t : Task) : Warning :=
  if t.is_blocking then .Ok
  else if t.state ≠ TaskState.Running then .Ok
  else if 1 < t.total_polls then .Ok
  else if ny.min_duration ≤ t.busy_now then .Warn
  else .Recheck

/-! ## The async-op update batch (`AsyncOpsState::update_async_ops`)

The generic `Store` (file `state/store.rs`) is not among the provided sources;
its `insert_with`, `updated` and the "new since last drain" set are modelled
from the spec (§4.3).  The per-record constructor closure and the stats-update
loop are translated from `update_async_ops` itself. -/

/-- A `proto::async_ops::AsyncOp` record of an update batch.  The nested
`proto::Id` / `proto::MetaId` wrappers are flattened to their numeric ids. -/
structure ProtoAsyncOp where
  id : Option Nat
  metadata : Option Nat
  resource_id : Option Nat
  parent_async_op_id : Option Nat
  source : String
deriving DecidableEq, Repr

/-- A `proto::async_ops::AsyncOpUpdate` batch. -/
structure AsyncOpUpdate where
  new_async_ops : List ProtoAsyncOp
  stats_update : List (Nat × ProtoAsyncOpStats)
  dropped_events : Nat
deriving DecidableEq, Repr

/-- Insert-or-replace into an association list keyed by local id (the store
never contains two records for the same local id). -/
def insertAssoc (k : Nat) (v : AsyncOp) : List (Nat × AsyncOp) → List (Nat × AsyncOp)
  | [] => [(k, v)]
  | (k1, v1) :: rest =>
    if k1 = k then (k, v) :: rest else (k1, v1) :: insertAssoc k v rest

/-- `HashMap::remove`: take the entry for `k` out of the map, returning the
removed value and the remaining map; `none` (map unchanged) when absent. -/
def lookupRemove (k : Nat) :
    List (Nat × ProtoAsyncOpStats) → Option (ProtoAsyncOpStats × List (Nat × ProtoAsyncOpStats))
  | [] => none
  | (k1, v) :: rest =>
    if k1 = k then some (v, rest)
    else (lookupRemove k rest).map (fun r => (r.1, (k1, v) :: r.2))

/-- Modelled from the spec: the entity store of one kind (§4.3), reduced to the
parts `update_async_ops` touches — the records keyed by local id and the "new
since last drain" id sequence. -/
structure Store where
  items : List (Nat × AsyncOp)
  new_items : List Nat
deriving DecidableEq, Repr

/-- Modelled from the spec: inserting one constructed record keyed by local id;
when `track` (the visibility) indicates the store tracks insertions, the id is
also appended to the "new since last drain" set (§4.3). -/
def Store.insertOne (st : Store) (track : Bool) (id : Nat) (op : AsyncOp) : Store :=
  { items := insertAssoc id op st.items,
    new_items := if track then st.new_items ++ [id] else st.new_items }

/-- The mutable context threaded through the `insert_with` closure of
`update_async_ops`: the async-op id remapper (owned by the store), the
resource and task id remappers, the interner, and the batch's `stats_update`
map being consumed. -/
structure BuildCtx where
  ids : Ids
  resource_ids : Ids
  task_ids : Ids
  strings : Strings
  stats_update : List (Nat × ProtoAsyncOpStats)
deriving DecidableEq, Repr

/-- The per-record constructor closure of `update_async_ops` (lines 143-192):
skip (returning `none`) when the record has no id, no metadata id, or its
metadata lookup fails; then consume the record's stats entry (skipping when
absent), remap ids, intern the parent and source strings, and yield the
constructed record keyed by its local id. -/
def build_async_op (metas : List Nat) (ao : ProtoAsyncOp) (ctx : BuildCtx) :
    Option (Nat × AsyncOp) × BuildCtx :=
  match ao.id with
  | none => (none, ctx)
  | some span_id =>
    match ao.metadata with
    | none => (none, ctx)
    | some meta_id =>
      if meta_id ∈ metas then
        match lookupRemove span_id ctx.stats_update with
        | none => (none, ctx)
        | some su =>
          let fp := AsyncOpStats.from_proto su.1 ctx.task_ids ctx.strings
          let stats := fp.1
          let idr := ctx.ids.id_for span_id
          let id := idr.1
          match ao.resource_id with
          | none =>
            (none, { ids := idr.2, resource_ids := ctx.resource_ids,
                     task_ids := fp.2.1, strings := fp.2.2, stats_update := su.2 })
          | some remote_rid =>
            let rr := ctx.resource_ids.id_for remote_rid
            let pr : InternedStr × Ids × Strings :=
              match ao.parent_async_op_id with
              | some pid =>
                let pl := idr.2.id_for pid
                let ps := fp.2.2.string (toString pl.1)
                (ps.1, pl.2, ps.2)
              | none =>
                let ps := fp.2.2.string ("n/a")
                (ps.1, idr.2, ps.2)
            let src := pr.2.2.string ao.source
            (some (id, { id := id, parent_id := pr.1, resource_id := rr.1,
                         meta_id := meta_id, source := src.1, stats := stats }),
             { ids := pr.2.1, resource_ids := rr.2, task_ids := fp.2.1,
               strings := src.2, stats_update := su.2 })
      else (none, ctx)

/-- Modelled from the spec: `Store::insert_with` (§4.3) — run the per-kind
constructor on each raw record of the batch; a record on which it returns
`none` is skipped, every constructed record is inserted keyed by local id. -/
def insertLoop (metas : List Nat) (track : Bool) (records : List ProtoAsyncOp)
    (store : Store) (ctx : BuildCtx) : Store × BuildCtx :=
  records.foldl
    (fun acc ao =>
      match build_async_op metas ao acc.2 with
      | (none, ctx1) => (acc.1, ctx1)
      | (some r, ctx1) => (acc.1.insertOne track r.1 r.2, ctx1))
    (store, ctx)

/-- The stats-delta loop of `update_async_ops` (lines 194-199) over the
spec-modelled `Store::updated` (§4.3): for every remaining stats entry whose
remote key maps to a stored entity, rebuild that entity's stats from the delta
when its metadata is still present; entries matching no stored entity are
silently dropped. -/
def applyUpdates (metas : List Nat) (deltas : List (Nat × ProtoAsyncOpStats)) (ids : Ids)
    (start : List (Nat × AsyncOp) × Ids × Strings) : List (Nat × AsyncOp) × Ids × Strings :=
  deltas.foldl
    (fun acc d =>
      match ids.map.lookup d.1 with
      | none => acc
      | some local_id =>
        match acc.1.lookup local_id with
        | none => acc
        | some op =>
          if op.meta_id ∈ metas then
            let fp := AsyncOpStats.from_proto d.2 acc.2.1 acc.2.2
            (insertAssoc local_id { op with stats := fp.1 } acc.1, fp.2.1, fp.2.2)
          else acc)
    start

/-- `AsyncOpsState`: the async-op store (with its id remapper) and the
accumulated dropped-event counter. -/
structure AsyncOpsState where
  store : Store
  ids : Ids
  dropped_events : Nat
deriving DecidableEq, Repr

/-- `AsyncOpsState::update_async_ops`: apply one update batch — insert the new
records (consuming their stats entries), apply the remaining stats entries as
deltas to stored entities, and accumulate the dropped-event count.  Returns
the new state together with the threaded interner and the resource and task id
remappers. -/
def AsyncOpsState.update_async_ops (state : AsyncOpsState) (strings : Strings)
    (metas : List Nat) (update : AsyncOpUpdate) (resource_ids : Ids) (task_ids : Ids)
    (visibility : Bool) : AsyncOpsState × Strings × Ids × Ids :=
  let ctx : BuildCtx :=
    { ids := state.ids, resource_ids := resource_ids, task_ids := task_ids,
      strings := strings, stats_update := update.stats_update }
  let ins := insertLoop metas visibility update.new_async_ops state.store ctx
  let ctx1 := ins.2
  let upd := applyUpdates metas ctx1.stats_update ctx1.ids
    (ins.1.items, ctx1.task_ids, ctx1.strings)
  ({ store := { items := upd.1, new_items := ins.1.new_items },
     ids := ctx1.ids,
     dropped_events := state.dropped_events + update.dropped_events },
   upd.2.2, ctx1.resource_ids, upd.2.1)

/-! ## Sample values used by witnesses and counterexamples -/

/-- A fixed interned handle for fields whose content is irrelevant. -/
def istrNA : InternedStr := { alloc := 0, content := "n/a" }

/-- An empty remapper. -/
def emptyIds : Ids := { map := [], next := 1 }

/-- An empty interner. -/
def emptyStrings : Strings := { strings := [], capacity := 0, next_alloc := 1 }

/-- Stats of a still-active async op (no precomputed total or idle). -/
def statsActive : AsyncOpStats :=
  { created_at := 5, dropped_at := none, polls := 1, busy := 2,
    last_poll_started := none, last_poll_ended := none,
    idle := none, total := none, task_id := none, task_id_str := istrNA }

/-- A still-active async op. -/
def opActive : AsyncOp :=
  { id := 0, parent_id := istrNA, resource_id := 0, meta_id := 0,
    source := istrNA, stats := statsActive }

/-- A completed async op: total 300, busy 100, idle 200. -/
def opDone : AsyncOp :=
  { opActive with
    stats := { statsActive with
               dropped_at := some 305, busy := 100,
               idle := some 200, total := some 300 } }

/-! ## Claim theorems -/

/-- `duration_since(..).unwrap_or_default()` is truncated subtraction. -/
theorem durationSince_getD (a b : Nat) : (durationSince a b).getD 0 = a - b := by
  unfold durationSince
  split <;> simp <;> omega

/-- `checked_sub(..).unwrap_or_default()` is truncated subtraction. -/
theorem checkedSub_getD (a b : Nat) : (checkedSub a b).getD 0 = a - b := by
  unfold checkedSub
  split <;> simp <;> omega

/-- C1: for every async op and query instant `now`, `busy(now)` is the
accumulated busy duration plus — only when a last-poll-start exists with no
matching last-poll-end — the elapsed time from that poll start to `now`,
clamped to zero when `now` precedes the poll start (truncated subtraction); in
every other case it is the accumulated busy duration alone. -/
theorem asyncop_busy_correct (a : AsyncOp) (now : Nat) :
    a.busy now =
      a.stats.busy +
        (match a.stats.last_poll_started, a.stats.last_poll_ended with
         | some t, none => now - t
         | _, _ => 0) := by
  rcases h1 : a.stats.last_poll_started with _ | t <;>
    rcases h2 : a.stats.last_poll_ended with _ | e <;>
      simp [AsyncOp.busy, h1, h2, durationSince_getD]

/-- C5: for a still-active async op (no precomputed total), `total` is
monotone in the query instant; for a completed one it returns the precomputed
duration at every instant; and an active op's `total(now)` is
`now - created_at`, saturating at zero when `now` precedes `created_at`. -/
theorem asyncop_total_correct (a : AsyncOp) :
    (a.stats.total = none → ∀ t1 t2 : Nat, t1 < t2 → a.total t1 ≤ a.total t2)
    ∧ (∀ d, a.stats.total = some d → ∀ now, a.total now = d)
    ∧ (a.stats.total = none → ∀ now, a.total now = now - a.stats.created_at) := by
  have key : ∀ now, a.stats.total = none → a.total now = now - a.stats.created_at := by
    intro now h
    unfold AsyncOp.total
    rw [h]
    simp [Option.orElse, durationSince_getD]
  refine ⟨?_, ?_, ?_⟩
  · intro h t1 t2 hlt
    rw [key t1 h, key t2 h]
    omega
  · intro d h now
    unfold AsyncOp.total
    rw [h]
    simp [Option.orElse]
  · intro h now
    exact key now h

/-- C5 witness: the three conjuncts evaluated on concrete ops — the active op
`opActive` (created at 5) and the completed op `opDone` (total 300). -/
theorem asyncop_total_correct_witness :
    opActive.total 6 ≤ opActive.total 9 ∧ opDone.total 50 = 300 ∧ opActive.total 9 = 4 :=
  ⟨(asyncop_total_correct opActive).1 rfl 6 9 (by decide),
   (asyncop_total_correct opDone).2.1 300 rfl 50,
   (asyncop_total_correct opActive).2.2 rfl 9⟩

/-- A protocol stats record whose accumulated busy time (400) exceeds the
lifetime of the op (dropped 300 after creation). -/
def cexPb : ProtoAsyncOpStats :=
  { created_at := 0, dropped_at := some 300,
    poll_stats := { polls := 1, busy_time := some 400,
                    last_poll_started := none, last_poll_ended := none },
    task_id := none }

/-- The stats block `from_proto` derives from `cexPb`: total 300, idle 0
(the negative idle is clamped), busy 400. -/
def cexStats : AsyncOpStats := (AsyncOpStats.from_proto cexPb emptyIds emptyStrings).1

/-- A completed async op holding the clamped stats of `cexStats`. -/
def cexOp : AsyncOp :=
  { id := 0, parent_id := istrNA, resource_id := 0, meta_id := 0,
    source := istrNA, stats := cexStats }

/-- C2 counterexample: `cexOp` is completed (it holds precomputed total 300
and idle 0, exactly as `from_proto` computes them), yet
`idle(now) + busy(now) = 400 ≠ 300 = total(now)` at `now = 1000`: the claimed
exact equality for completed ops fails, and the sum exceeds the total by the
full busy excess, so no small tolerance bounds it either. -/
theorem idle_busy_total_not_exact :
    cexOp.stats.total = some 300 ∧ cexOp.stats.idle = some 0 ∧
    cexOp.idle 1000 + cexOp.busy 1000 ≠ cexOp.total 1000 := by
  decide

/-- C2 (amended): `idle(now) + busy(now) = total(now)` holds exactly (a) for
every op without a precomputed idle whenever `busy(now) ≤ total(now)`, and
(b) for every completed op holding precomputed total `d` and idle
`d - accumulated busy` (as `from_proto` derives them) provided the accumulated
busy does not exceed `d` and the op is not marked mid-poll. -/
theorem asyncop_idle_busy_total_amended (a : AsyncOp) (now : Nat) :
    (a.stats.idle = none → a.busy now ≤ a.total now →
      a.idle now + a.busy now = a.total now)
    ∧ (∀ d, a.stats.total = some d → a.stats.idle = some (d - a.stats.busy) →
        a.stats.busy ≤ d →
        (a.stats.last_poll_started = none ∨ a.stats.last_poll_ended ≠ none) →
        a.idle now + a.busy now = a.total now) := by
  constructor
  · intro hidle hle
    unfold AsyncOp.idle
    rw [hidle]
    simp [Option.orElse, checkedSub_getD]
    omega
  · intro d htot hidle hble hnm
    have hbusy : a.busy now = a.stats.busy := by
      unfold AsyncOp.busy
      rcases h1 : a.stats.last_poll_started with _ | t <;>
        rcases h2 : a.stats.last_poll_ended with _ | e <;> simp_all
    have htotal : a.total now = d := by
      unfold AsyncOp.total
      rw [htot]
      simp [Option.orElse]
    unfold AsyncOp.idle
    rw [hidle]
    simp [Option.orElse, hbusy, htotal]
    omega

/-! ### Sorting lemmas (C6) -/

/-- `leB` is transitive. -/
theorem leB_trans {β : Type} [LinearOrder β] (a b c : β)
    (h1 : leB a b = true) (h2 : leB b c = true) : leB a c = true := by
  simp only [leB, decide_eq_true_eq] at *
  exact le_trans h1 h2

/-- `leB` is total. -/
theorem leB_total {β : Type} [LinearOrder β] (a b : β) : (leB a b || leB b a) = true := by
  simp only [leB, Bool.or_eq_true, decide_eq_true_eq]
  exact le_total a b

/-- `obLe` preserves transitivity. -/
theorem obLe_trans {β : Type} (le : β → β → Bool)
    (htrans : ∀ a b c, le a b = true → le b c = true → le a c = true) :
    ∀ x y z, obLe le x y = true → obLe le y z = true → obLe le x z = true := by
  intro x y z h1 h2
  cases x <;> cases y <;> cases z <;> simp [obLe] at *
  exact htrans _ _ _ h1 h2

/-- `obLe` preserves totality. -/
theorem obLe_total {β : Type} (le : β → β → Bool)
    (htotal : ∀ a b, (le a b || le b a) = true) :
    ∀ x y, (obLe le x y || obLe le y x) = true := by
  intro x y
  cases x with
  | none => simp [obLe]
  | some a =>
    cases y with
    | none => simp [obLe]
    | some b =>
      simp only [obLe]
      exact htotal a b

/-- `keyedLe` is transitive whenever the base comparison is. -/
theorem keyedLe_trans {β : Type} (le : β → β → Bool) (key : AsyncOp → β)
    (htrans : ∀ a b c, le a b = true → le b c = true → le a c = true) :
    ∀ x y z, keyedLe le key x y = true → keyedLe le key y z = true →
      keyedLe le key x z = true := by
  intro x y z h1 h2
  exact obLe_trans le htrans _ _ _ h1 h2

/-- `keyedLe` is total whenever the base comparison is. -/
theorem keyedLe_total {β : Type} (le : β → β → Bool) (key : AsyncOp → β)
    (htotal : ∀ a b, (le a b || le b a) = true) :
    ∀ x y, (keyedLe le key x y || keyedLe le key y x) = true := by
  intro x y
  exact obLe_total le htotal _ _

/-- Under `keyedLe`, no live reference is `≤` an evicted one: whoever precedes
an evicted reference in sorted order is itself evicted. -/
theorem keyedLe_none_first {β : Type} (le : β → β → Bool) (key : AsyncOp → β) :
    ∀ x y, keyedLe le key x y = true → y.target = none → x.target = none := by
  intro x y h hy
  cases hx : x.target with
  | none => rfl
  | some a =>
    rw [keyedLe, upgradeKey, upgradeKey, hx, hy] at h
    simp [obLe] at h

/-- Every `SortBy` comparison is transitive. -/
theorem sortBy_le_trans (s : SortBy) (now : Nat) :
    ∀ x y z, s.le now x y = true → s.le now y z = true → s.le now x z = true := by
  cases s
  case Aid => exact keyedLe_trans _ _ (fun a b c => leB_trans a b c)
  case Task => exact keyedLe_trans _ _ (obLe_trans _ (fun a b c => leB_trans a b c))
  case Source => exact keyedLe_trans _ _ (fun a b c => leB_trans a b c)
  case Total => exact keyedLe_trans _ _ (fun a b c => leB_trans a b c)
  case Busy => exact keyedLe_trans _ _ (fun a b c => leB_trans a b c)
  case Idle => exact keyedLe_trans _ _ (fun a b c => leB_trans a b c)
  case Polls => exact keyedLe_trans _ _ (fun a b c => leB_trans a b c)

/-- Every `SortBy` comparison is total. -/
theorem sortBy_le_total (s : SortBy) (now : Nat) :
    ∀ x y, (s.le now x y || s.le now y x) = true := by
  cases s
  case Aid => exact keyedLe_total _ _ (fun a b => leB_total a b)
  case Task => exact keyedLe_total _ _ (obLe_total _ (fun a b => leB_total a b))
  case Source => exact keyedLe_total _ _ (fun a b => leB_total a b)
  case Total => exact keyedLe_total _ _ (fun a b => leB_total a b)
  case Busy => exact keyedLe_total _ _ (fun a b => leB_total a b)
  case Idle => exact keyedLe_total _ _ (fun a b => leB_total a b)
  case Polls => exact keyedLe_total _ _ (fun a b => leB_total a b)

/-- Under every `SortBy` comparison, only evicted references precede an
evicted reference. -/
theorem sortBy_le_none_first (s : SortBy) (now : Nat) :
    ∀ x y, s.le now x y = true → y.target = none → x.target = none := by
  cases s <;> exact keyedLe_none_first _ _

/-- A live weak reference to `opActive`. -/
def wAlive : WeakOp := { target := some opActive }

/-- A weak reference whose backing entity has been evicted. -/
def wGone : WeakOp := { target := none }

/-- C6 counterexample: sorting `[wAlive, wGone]` by any key — here the id
column — places the evicted reference *first*, not last: in Rust's derived
`Option` order a failed `upgrade` yields `None`, the *minimal* key. -/
theorem evicted_sorts_first_not_last :
    (SortBy.Aid.sort 0 [wAlive, wGone]).head? = some wGone
    ∧ (SortBy.Aid.sort 0 [wAlive, wGone]).getLast? ≠ some wGone := by
  have h : SortBy.Aid.sort 0 [wAlive, wGone] = [wGone, wAlive] := by
    simp [SortBy.sort, SortBy.le, List.mergeSort, List.merge, keyedLe, upgradeKey,
      obLe, leB, wAlive, wGone]
  rw [h]
  refine ⟨rfl, ?_⟩
  decide

/-- C6 (amended): every `SortBy::sort` is a pure projection — it returns a
permutation of its input, sorted under the selected key comparison at the one
instant `now`, mutating no entity — and every reference whose backing entity
has been evicted (failed upgrade) sorts as the *minimal*/undefined key, placed
*first*: in the result, anything preceding an evicted reference is itself
evicted. -/
theorem sortby_sort_spec (s : SortBy) (now : Nat) (ops : List WeakOp) :
    (s.sort now ops).Perm ops
    ∧ (s.sort now ops).Pairwise (fun x y => s.le now x y = true)
    ∧ (s.sort now ops).Pairwise (fun x y => y.target = none → x.target = none) := by
  have hsorted := @List.sorted_mergeSort WeakOp (s.le now)
    (fun a b c => sortBy_le_trans s now a b c)
    (fun a b => sortBy_le_total s now a b) ops
  refine ⟨List.mergeSort_perm ops _, hsorted, ?_⟩
  exact hsorted.imp (fun h hy => sortBy_le_none_first s now _ _ h hy)

/-! ### Warning-engine lemmas (C3, C9) -/

/-- The clone an entity holds after a verdict history is determined by the
last non-`Recheck` verdict (and by the starting state when there is none). -/
theorem warned_foldl (b : Bool) (cs : List Warning) :
    cs.foldl (fun prev w => holdsClone (Linter.check w) prev) b
      = (match lastNonRecheck cs with
         | some Warning.Warn => true
         | none => b
         | _ => false) := by
  induction cs generalizing b with
  | nil => rfl
  | cons w ws ih =>
    simp only [List.foldl_cons]
    rw [ih]
    cases w <;>
      simp only [lastNonRecheck, Linter.check, holdsClone] <;>
        rcases h : lastNonRecheck ws with _ | r <;> simp <;> cases r <;> rfl

/-- C3: the rule handle's `count()` — `Rc::strong_count - 1`, the minus-one
discounting the canonical registry holder — equals the number of entity-held
clones, and therefore the number of live entities whose last non-`Recheck`
verdict was `Warn`.  `entities` lists the verdict history of every live
(non-evicted) entity; an entity holds a clone exactly as the §4.6 state
machine dictates. -/
theorem linter_count_correct (entities : List (List Warning)) :
    Linter.count (entities.map warnedAfter) = (entities.map warnedAfter).countP (fun b => b)
    ∧ Linter.count (entities.map warnedAfter)
        = entities.countP (fun cs => lastNonRecheck cs == some Warning.Warn) := by
  have hcount : Linter.count (entities.map warnedAfter)
      = (entities.map warnedAfter).countP (fun b => b) := by
    simp [Linter.count, strongCount]
  refine ⟨hcount, ?_⟩
  rw [hcount, List.countP_map]
  apply List.countP_congr
  intro cs _
  simp only [Function.comp, warnedAfter, warned_foldl]
  rcases h : lastNonRecheck cs with _ | r
  · rfl
  · cases r <;> rfl

/-- C9: `NeverYielded::check` returns `Ok` for every blocking task, every task
not in the running state, and every task polled more than once; for a running,
non-blocking task on its first poll it returns `Warn` once the busy duration
has reached the configured minimum and `Recheck` otherwise — and a `Recheck`
verdict leaves the entity's held-clone (warned) state unchanged. -/
theorem never_yielded_check_correct (ny : NeverYielded) (t : Task) :
    (t.is_blocking = true → ny.check t = Warning.Ok)
    ∧ (t.state ≠ TaskState.Running → ny.check t = Warning.Ok)
    ∧ (1 < t.total_polls → ny.check t = Warning.Ok)
    ∧ (t.is_blocking = false → t.state = TaskState.Running → t.total_polls = 1 →
        ny.check t = (if ny.min_duration ≤ t.busy_now then Warning.Warn else Warning.Recheck))
    ∧ (∀ prev, holdsClone (Linter.check Warning.Recheck) prev = prev) := by
  refine ⟨?_, ?_, ?_, ?_, ?_⟩
  · intro h
    simp [NeverYielded.check, h]
  · intro h
    cases hb : t.is_blocking <;> simp [NeverYielded.check, hb, h]
  · intro h
    cases hb : t.is_blocking <;>
      rcases hs : decide (t.state ≠ TaskState.Running) with _ | _ <;>
        simp_all [NeverYielded.check]
  · intro hb hs hp
    simp [NeverYielded.check, hb, hs, hp]
  · intro prev
    rfl

/-- The default never-yielded threshold, 3 time units for the witness. -/
def nyDefault : NeverYielded := { min_duration := 3 }

/-- A non-blocking running task on its first poll, busy for 5 units. -/
def taskRunning1 : Task :=
  { is_blocking := false, state := TaskState.Running, total_polls := 1, busy_now := 5 }

/-- A blocking task. -/
def taskBlocked : Task :=
  { is_blocking := true, state := TaskState.Running, total_polls := 1, busy_now := 5 }

/-- C9 witness: the blocking task gets `Ok`; the running first-poll task with
busy 5 ≥ threshold 3 gets `Warn`. -/
theorem never_yielded_check_correct_witness :
    nyDefault.check taskBlocked = Warning.Ok ∧ nyDefault.check taskRunning1 = Warning.Warn := by
  constructor
  · exact (never_yielded_check_correct nyDefault taskBlocked).1 rfl
  · have h := (never_yielded_check_correct nyDefault taskRunning1).2.2.2.1 rfl rfl rfl
    simpa [nyDefault, taskRunning1] using h

/-! ### Interner lemmas (C7, C8) -/

/-- Bumping a holder count never changes an entry's content. -/
theorem bumpEntry_content (s : String) (e : StrEntry) : (bumpEntry s e).content = e.content := by
  unfold bumpEntry
  split <;> rfl

/-- Bumping a holder count never changes an entry's allocation identity. -/
theorem bumpEntry_alloc (s : String) (e : StrEntry) : (bumpEntry s e).alloc = e.alloc := by
  unfold bumpEntry
  split <;> rfl

/-- Content lookup commutes with holder-count bumping. -/
theorem find?_map_bumpEntry (s s' : String) (l : List StrEntry) :
    (l.map (bumpEntry s)).find? (fun e => e.content == s')
      = (l.find? (fun e => e.content == s')).map (bumpEntry s) := by
  induction l with
  | nil => rfl
  | cons a l ih =>
    simp only [List.map_cons, List.find?_cons, bumpEntry_content]
    rcases h : (a.content == s') with _ | _ <;> simp [h, ih]

/-- Bumping holder counts leaves the content sequence unchanged. -/
theorem map_content_map_bumpEntry (s : String) (l : List StrEntry) :
    (l.map (bumpEntry s)).map (fun e => e.content) = l.map (fun e => e.content) := by
  induction l with
  | nil => rfl
  | cons a l ih => simp [bumpEntry_content, ih]

/-- C7: `retain_referenced` removes exactly the entries with no external
holder remaining, every surviving entry is one of the original entries
unchanged (contents of all externally held handles are untouched), and the
backing capacity changes only when the number of removed entries is non-zero
and the reclaimable free capacity strictly exceeds the four-kilobyte
threshold (free capacity is a multiple of the 24-byte string header, so it
can never equal 4096 exactly and the code's `>=` test coincides with
"exceeds"). -/
theorem strings_retain_referenced_correct (st : Strings) :
    (st.retain_referenced).strings
        = st.strings.filter (fun e => 0 < e.external_holders)
    ∧ (∀ e ∈ (st.retain_referenced).strings, e ∈ st.strings)
    ∧ ((st.retain_referenced).capacity ≠ st.capacity ↔
        ((st.strings.filter (fun e => 0 < e.external_holders)).length < st.strings.length
         ∧ FOUR_KILOBYTES
             < (st.capacity - (st.strings.filter (fun e => 0 < e.external_holders)).length)
                 * SIZE_OF_STRING)) := by
  have hfilter : st.strings.filter (fun e => decide (1 < e.strong_count))
      = st.strings.filter (fun e => decide (0 < e.external_holders)) := by
    apply List.filter_congr
    intro e _
    rw [decide_eq_decide]
    simp only [StrEntry.strong_count]
    omega
  have hstr : (st.retain_referenced).strings
      = st.strings.filter (fun e => 0 < e.external_holders) := by
    simp only [Strings.retain_referenced]
    split <;> [skip; simpa using hfilter]
    split <;> simpa using hfilter
  refine ⟨hstr, ?_, ?_⟩
  · intro e he
    rw [hstr] at he
    exact (List.mem_filter.mp he).1
  · simp only [Strings.retain_referenced]
    rw [hfilter]
    split
    · split
      · simp only [SIZE_OF_STRING, FOUR_KILOBYTES] at *
        constructor
        · intro _
          omega
        · intro _
          omega
      · simp only [SIZE_OF_STRING, FOUR_KILOBYTES] at *
        constructor
        · intro hc
          exact absurd rfl hc
        · intro hc
          omega
    · constructor
      · intro hc
        exact absurd rfl hc
      · intro hc
        omega

/-- C7 has no hypothesis, but record one concrete run: an interner holding one
referenced and one unreferenced entry over a capacity of 200 slots drops
exactly the unreferenced entry and shrinks (free capacity 199·24 > 4096). -/
theorem strings_retain_referenced_example :
    (Strings.retain_referenced
      { strings := [{ alloc := 0, content := "a", external_holders := 1 },
                    { alloc := 1, content := "b", external_holders := 0 }],
        capacity := 200, next_alloc := 2 }).strings
      = [{ alloc := 0, content := "a", external_holders := 1 }]
    ∧ (Strings.retain_referenced
        { strings := [{ alloc := 0, content := "a", external_holders := 1 },
                      { alloc := 1, content := "b", external_holders := 0 }],
          capacity := 200, next_alloc := 2 }).capacity = 1 := by
  decide

/-- C8: the lookup-or-insert `string` returns a handle whose content is the
requested string; a second request with content-equal input (before any sweep)
returns an identity-equal handle (the same allocation); every already-present
entry keeps its allocation and content (a lookup never replaces the existing
allocation); and the at-most-one-entry-per-content invariant is preserved. -/
theorem strings_string_interns (st : Strings) (s1 s2 : String) (h : s1 = s2) :
    ((st.string s1).1).content = s1
    ∧ (((st.string s1).2).string s2).1.content = s2
    ∧ (((st.string s1).2).string s2).1.alloc = ((st.string s1).1).alloc
    ∧ (∀ e ∈ st.strings, ∃ e2 ∈ ((st.string s1).2).strings,
        e2.alloc = e.alloc ∧ e2.content = e.content)
    ∧ ((st.strings.map (fun e => e.content)).Nodup →
        ((((st.string s1).2).strings).map (fun e => e.content)).Nodup) := by
  subst h
  rcases hf : st.strings.find? (fun e => e.content == s1) with _ | e
  · -- content absent: insert a fresh allocation at the end
    have habsent : ∀ e ∈ st.strings, e.content ≠ s1 := by
      intro e he
      have := List.find?_eq_none.mp hf e he
      simpa using this
    have hfind1 : (st.strings ++
        [({ alloc := st.next_alloc, content := s1, external_holders := 1 } : StrEntry)]).find?
          (fun e => e.content == s1)
        = some ({ alloc := st.next_alloc, content := s1, external_holders := 1 } : StrEntry) := by
      rw [List.find?_append, hf]
      simp
    refine ⟨?_, ?_, ?_, ?_, ?_⟩
    · simp [Strings.string, hf, Strings.insert]
    · simp [Strings.string, hf, Strings.insert, hfind1]
    · simp [Strings.string, hf, Strings.insert, hfind1]
    · intro e2 he2
      refine ⟨e2, ?_, rfl, rfl⟩
      simp [Strings.string, hf, Strings.insert]
      exact Or.inl he2
    · intro hnd
      simp only [Strings.string, hf, Strings.insert, List.map_append, List.map_cons,
        List.map_nil]
      rw [List.nodup_append]
      refine ⟨hnd, List.nodup_singleton _, ?_⟩
      intro c hc hc1
      rcases List.mem_map.mp hc with ⟨e2, he2, hce⟩
      simp at hc1
      exact habsent e2 he2 (by rw [hce, hc1])
  · -- content present: a clone of the existing allocation is returned
    have hcontent : e.content = s1 := by
      have := List.find?_some hf
      simpa using this
    have hfind1 : ((st.strings.map (bumpEntry s1)).find? (fun x => x.content == s1))
        = some (bumpEntry s1 e) := by
      rw [find?_map_bumpEntry, hf]
      rfl
    refine ⟨?_, ?_, ?_, ?_, ?_⟩
    · simp [Strings.string, hf, hcontent]
    · simp [Strings.string, hf, hfind1, bumpEntry_content, hcontent]
    · simp [Strings.string, hf, hfind1, bumpEntry_alloc]
    · intro e2 he2
      refine ⟨bumpEntry s1 e2, ?_, bumpEntry_alloc s1 e2, bumpEntry_content s1 e2⟩
      simp [Strings.string, hf]
      exact ⟨e2, he2, rfl⟩
    · intro hnd
      simp only [Strings.string, hf]
      rw [map_content_map_bumpEntry]
      exact hnd

/-- A small interner already holding content `"a"` under allocation 5. -/
def stW : Strings :=
  { strings := [{ alloc := 5, content := "a", external_holders := 2 }],
    capacity := 3, next_alloc := 6 }

/-- C8 witness: interning `"a"` twice in `stW` returns content `"a"` and the
same allocation both times. -/
theorem strings_string_interns_witness :
    ((stW.string ("a")).1).content = "a"
    ∧ (((stW.string ("a")).2).string ("a")).1.alloc = ((stW.string ("a")).1).alloc := by
  have h := strings_string_interns stW ("a") ("a") rfl
  exact ⟨h.1, h.2.2.1⟩

/-! ### Update-batch lemmas (C4, C10) -/

/-- The cons-step unfolding of `lookupRemove`. -/
theorem lookupRemove_cons (k k1 : Nat) (v : ProtoAsyncOpStats)
    (rest : List (Nat × ProtoAsyncOpStats)) :
    lookupRemove k ((k1, v) :: rest)
      = if k1 = k then some (v, rest)
        else (lookupRemove k rest).map (fun r => (r.1, (k1, v) :: r.2)) := rfl

/-- A key is absent from an association list exactly when it is not among the
keys. -/
theorem lookup_eq_none_iff (sid : Nat) (l : List (Nat × ProtoAsyncOpStats)) :
    l.lookup sid = none ↔ sid ∉ l.map Prod.fst := by
  induction l with
  | nil => simp
  | cons a l ih =>
    rcases a with ⟨k, v⟩
    rcases hk : (sid == k) with _ | _
    · have hne : ¬ sid = k := by simpa using hk
      simp only [List.lookup, hk, List.map_cons, List.mem_cons]
      rw [ih]
      constructor
      · intro h hmem
        rcases hmem with h1 | h2
        · exact hne h1
        · exact h h2
      · intro h hmem
        exact h (Or.inr hmem)
    · have heq : sid = k := by simpa using hk
      simp [List.lookup, hk, heq]

/-- `remove` finds nothing exactly when plain lookup finds nothing. -/
theorem lookupRemove_eq_none (k : Nat) (l : List (Nat × ProtoAsyncOpStats)) :
    lookupRemove k l = none ↔ l.lookup k = none := by
  induction l with
  | nil => simp [lookupRemove]
  | cons a l ih =>
    rcases a with ⟨k1, v⟩
    by_cases hk : k1 = k
    · subst hk
      simp [lookupRemove_cons, List.lookup]
    · have hk2 : (k == k1) = false := by
        simp
        omega
      simp only [lookupRemove_cons, if_neg hk, List.lookup, hk2]
      rw [← ih]
      rcases h : lookupRemove k l with _ | su <;> simp

/-- `remove` never introduces a key: a key absent before removal is absent
from the remainder. -/
theorem lookupRemove_preserves_none (k sid : Nat) (l : List (Nat × ProtoAsyncOpStats))
    (sv : ProtoAsyncOpStats) (sr : List (Nat × ProtoAsyncOpStats))
    (h : lookupRemove k l = some (sv, sr)) (hs : l.lookup sid = none) :
    sr.lookup sid = none := by
  induction l generalizing sv sr with
  | nil => simp [lookupRemove] at h
  | cons a l ih =>
    rcases a with ⟨k1, v⟩
    rcases hk1 : (sid == k1) with _ | _
    · simp only [List.lookup, hk1] at hs
      rw [lookupRemove_cons] at h
      by_cases hk : k1 = k
      · rw [if_pos hk] at h
        simp only [Option.some.injEq, Prod.mk.injEq] at h
        rw [← h.2]
        exact hs
      · rw [if_neg hk] at h
        rcases hr : lookupRemove k l with _ | su1
        · rw [hr] at h
          simp at h
        · rw [hr] at h
          rcases su1 with ⟨sv1, sr1⟩
          simp only [Option.map_some', Option.some.injEq, Prod.mk.injEq] at h
          rw [← h.2]
          simp only [List.lookup, hk1]
          exact ih sv1 sr1 hr hs
    · simp only [List.lookup, hk1] at hs
      exact absurd hs (by simp)

/-- With no duplicate keys, the remainder of a successful `remove` no longer
contains the removed key. -/
theorem lookupRemove_self_none (k : Nat) (l : List (Nat × ProtoAsyncOpStats))
    (sv : ProtoAsyncOpStats) (sr : List (Nat × ProtoAsyncOpStats))
    (hnd : (l.map Prod.fst).Nodup) (h : lookupRemove k l = some (sv, sr)) :
    sr.lookup k = none := by
  induction l generalizing sv sr with
  | nil => simp [lookupRemove] at h
  | cons a l ih =>
    rcases a with ⟨k1, v⟩
    simp only [List.map_cons, List.nodup_cons] at hnd
    rw [lookupRemove_cons] at h
    by_cases hk : k1 = k
    · rw [if_pos hk] at h
      simp only [Option.some.injEq, Prod.mk.injEq] at h
      rw [← h.2, lookup_eq_none_iff, ← hk]
      exact hnd.1
    · rw [if_neg hk] at h
      rcases hr : lookupRemove k l with _ | su1
      · rw [hr] at h
        simp at h
      · rw [hr] at h
        rcases su1 with ⟨sv1, sr1⟩
        simp only [Option.map_some', Option.some.injEq, Prod.mk.injEq] at h
        have hk2 : (k == k1) = false := by
          simp
          omega
        rw [← h.2]
        simp only [List.lookup, hk2]
        exact ih sv1 sr1 hnd.2 hr

/-- A single build step never introduces a key into the pending stats-update
map: it either leaves the map alone or removes one entry from it. -/
theorem build_stats_mono (metas : List Nat) (r : ProtoAsyncOp) (ctx : BuildCtx) (sid : Nat)
    (h : ctx.stats_update.lookup sid = none) :
    ((build_async_op metas r ctx).2).stats_update.lookup sid = none := by
  rcases hid : r.id with _ | span_id
  · simpa [build_async_op, hid] using h
  · rcases hm : r.metadata with _ | m
    · simpa [build_async_op, hid, hm] using h
    · by_cases hmem : m ∈ metas
      · rcases hlr : lookupRemove span_id ctx.stats_update with _ | ⟨sv, sr⟩
        · simpa [build_async_op, hid, hm, hmem, hlr] using h
        · have hsu : sr.lookup sid = none :=
            lookupRemove_preserves_none span_id sid ctx.stats_update sv sr hlr h
          rcases hrid : r.resource_id with _ | rid
          · simpa [build_async_op, hid, hm, hmem, hlr, hrid] using hsu
          · simpa [build_async_op, hid, hm, hmem, hlr, hrid] using hsu
      · simpa [build_async_op, hid, hm, hmem] using h

/-- The whole insert phase never re-introduces a key into the pending
stats-update map. -/
theorem insertLoop_stats_mono (metas : List Nat) (track : Bool) :
    ∀ (records : List ProtoAsyncOp) (store : Store) (ctx : BuildCtx) (sid : Nat),
      ctx.stats_update.lookup sid = none →
      ((insertLoop metas track records store ctx).2).stats_update.lookup sid = none := by
  intro records
  induction records with
  | nil =>
    intro store ctx sid h
    simpa [insertLoop] using h
  | cons a rs ih =>
    intro store ctx sid h
    have hmono := build_stats_mono metas a ctx sid h
    simp only [insertLoop, List.foldl_cons]
    rcases hb : build_async_op metas a ctx with ⟨op1, ctx1⟩
    rw [hb] at hmono
    cases op1 with
    | none => exact ih store ctx1 sid hmono
    | some r => exact ih (store.insertOne track r.1 r.2) ctx1 sid hmono

/-- C4: during batch insertion, a record with no wire id, no metadata id, or a
failed metadata-table lookup is skipped with no effect at all: its build step
returns nothing and leaves every table untouched, the rest of the batch
processes exactly as if the malformed record were absent, and the whole
update — stats deltas and dropped-event counting included — equals the update
on the batch with the malformed record removed. -/
theorem update_skips_malformed (metas : List Nat) (r : ProtoAsyncOp)
    (hmal : r.id = none ∨ r.metadata = none ∨ ∃ m, r.metadata = some m ∧ m ∉ metas) :
    (∀ ctx, build_async_op metas r ctx = (none, ctx))
    ∧ (∀ track pre post store ctx,
        insertLoop metas track (pre ++ r :: post) store ctx
          = insertLoop metas track (pre ++ post) store ctx)
    ∧ (∀ (st : AsyncOpsState) (strings : Strings) (upd : AsyncOpUpdate)
         (resource_ids task_ids : Ids) (visibility : Bool) pre post,
        upd.new_async_ops = pre ++ r :: post →
        st.update_async_ops strings metas upd resource_ids task_ids visibility
          = st.update_async_ops strings metas
              { upd with new_async_ops := pre ++ post } resource_ids task_ids visibility) := by
  have hbuild : ∀ ctx, build_async_op metas r ctx = (none, ctx) := by
    intro ctx
    rcases hmal with hid | hm | ⟨m, hm, hnot⟩
    · simp [build_async_op, hid]
    · rcases hi : r.id with _ | sid <;> simp [build_async_op, hi, hm]
    · rcases hi : r.id with _ | sid <;> simp [build_async_op, hi, hm, hnot]
  have hloop : ∀ track pre post store ctx,
      insertLoop metas track (pre ++ r :: post) store ctx
        = insertLoop metas track (pre ++ post) store ctx := by
    intro track pre post store ctx
    simp [insertLoop, List.foldl_append, hbuild]
  refine ⟨hbuild, hloop, ?_⟩
  intro st strings upd resource_ids task_ids visibility pre post hnew
  simp only [AsyncOpsState.update_async_ops, hnew]
  rw [hloop]

/-- A record with no wire id at all. -/
def rBad : ProtoAsyncOp :=
  { id := none, metadata := some 3, resource_id := some 2,
    parent_async_op_id := none, source := "loc" }

/-- A well-formed record whose stats entry (key 7) is present. -/
def rGood : ProtoAsyncOp :=
  { id := some 7, metadata := some 3, resource_id := some 2,
    parent_async_op_id := none, source := "loc" }

/-- A well-formed record with no stats entry for its key 9. -/
def rNoStats : ProtoAsyncOp :=
  { id := some 9, metadata := some 3, resource_id := some 2,
    parent_async_op_id := none, source := "loc" }

/-- A one-entry stats update for remote id 7. -/
def pbW : ProtoAsyncOpStats :=
  { created_at := 0, dropped_at := none,
    poll_stats := { polls := 1, busy_time := some 5,
                    last_poll_started := none, last_poll_ended := none },
    task_id := none }

/-- A concrete build context whose stats-update map holds only key 7. -/
def ctxW : BuildCtx :=
  { ids := emptyIds, resource_ids := emptyIds, task_ids := emptyIds,
    strings := emptyStrings, stats_update := [(7, pbW)] }

/-- An empty store. -/
def storeW : Store := { items := [], new_items := [] }

/-- C4 witness: the id-less record `rBad` builds to nothing and leaves the
context untouched, and inserting the batch `[rBad]` equals inserting the empty
batch. -/
theorem update_skips_malformed_witness :
    build_async_op [3] rBad ctxW = (none, ctxW)
    ∧ insertLoop [3] true [rBad] storeW ctxW = insertLoop [3] true [] storeW ctxW := by
  have h := update_skips_malformed [3] rBad (Or.inl rfl)
  exact ⟨h.1 ctxW, h.2.1 true [] [] storeW ctxW⟩

/-- C10: a new record whose remote id has no entry in the batch's stats-update
map is skipped with the context untouched (so nothing is inserted for it); a
record that does build consumes its stats entry, whose key is then absent from
the remaining map (given the map's keys are duplicate-free, as for a hash
map); and the insert phase never re-introduces a consumed key — so the entry
can never also be applied as a delta to an existing entity in the same batch. -/
theorem stats_entry_consumed (metas : List Nat) :
    (∀ (r : ProtoAsyncOp) (ctx : BuildCtx) (sid : Nat), r.id = some sid →
        ctx.stats_update.lookup sid = none →
        build_async_op metas r ctx = (none, ctx))
    ∧ (∀ (r : ProtoAsyncOp) (ctx : BuildCtx) (sid : Nat),
        (ctx.stats_update.map Prod.fst).Nodup →
        r.id = some sid →
        ((build_async_op metas r ctx).1).isSome = true →
        ((build_async_op metas r ctx).2).stats_update.lookup sid = none)
    ∧ (∀ (track : Bool) (records : List ProtoAsyncOp) (store : Store) (ctx : BuildCtx)
         (sid : Nat),
        ctx.stats_update.lookup sid = none →
        ((insertLoop metas track records store ctx).2).stats_update.lookup sid = none) := by
  refine ⟨?_, ?_, ?_⟩
  · intro r ctx sid hr hnone
    have hlr : lookupRemove sid ctx.stats_update = none :=
      (lookupRemove_eq_none sid ctx.stats_update).mpr hnone
    rcases hm : r.metadata with _ | m
    · simp [build_async_op, hr, hm]
    · by_cases hmem : m ∈ metas
      · simp [build_async_op, hr, hm, hmem, hlr]
      · simp [build_async_op, hr, hm, hmem]
  · intro r ctx sid hnd hr hsome
    rcases hm : r.metadata with _ | m
    · simp [build_async_op, hr, hm] at hsome
    · by_cases hmem : m ∈ metas
      · rcases hlr : lookupRemove sid ctx.stats_update with _ | ⟨sv, sr⟩
        · simp [build_async_op, hr, hm, hmem, hlr] at hsome
        · rcases hrid : r.resource_id with _ | rid
          · simp [build_async_op, hr, hm, hmem, hlr, hrid] at hsome
          · have hctx : ((build_async_op metas r ctx).2).stats_update = sr := by
              simp [build_async_op, hr, hm, hmem, hlr, hrid]
            rw [hctx]
            exact lookupRemove_self_none sid ctx.stats_update sv sr hnd hlr
      · simp [build_async_op, hr, hm, hmem] at hsome
  · intro track records store ctx sid h
    exact insertLoop_stats_mono metas track records store ctx sid h

/-- C10 witness: in the context `ctxW` (stats map holding only key 7), the
well-formed record `rNoStats` (key 9) is skipped with the context unchanged;
building `rGood` (key 7) succeeds and leaves no entry for key 7 in the
remaining map; and inserting `[rGood]` keeps the absent key 9 absent. -/
theorem stats_entry_consumed_witness :
    build_async_op [3] rNoStats ctxW = (none, ctxW)
    ∧ ((build_async_op [3] rGood ctxW).2).stats_update.lookup 7 = none
    ∧ ((insertLoop [3] true [rGood] storeW ctxW).2).stats_update.lookup 9 = none := by
  refine ⟨?_, ?_, ?_⟩
  · exact (stats_entry_consumed [3]).1 rNoStats ctxW 9 rfl (by decide)
  · exact (stats_entry_consumed [3]).2.1 rGood ctxW 7 (by decide) rfl (by decide)
  · exact (stats_entry_consumed [3]).2.2 true [rGood] storeW ctxW 9 (by decide)

/-- C2 witness: the amended equality evaluated on the active op `opActive`
(no precomputed idle, busy 2 ≤ total) at instant 9, and on the completed op
`opDone` (total 300, busy 100, idle 200) at instant 50. -/
theorem asyncop_idle_busy_total_amended_witness :
    opActive.idle 9 + opActive.busy 9 = opActive.total 9 ∧
    opDone.idle 50 + opDone.busy 50 = opDone.total 50 :=
  ⟨(asyncop_idle_busy_total_amended opActive 9).1 rfl (by decide),
   (asyncop_idle_busy_total_amended opDone 50).2 300 rfl (by decide) (by decide)
     (Or.inl rfl)⟩

end Console
